import Mathlib

/-!
Verification development for the zalomini-login repository: a Google-Sheet
backed auto-login controller.  The backend (Express server) exposes
`get-state` / `update-cell` actions over one sheet; the frontend (React hook)
polls the backend and reconstructs log entries from heterogeneous response
shapes.  JavaScript strings are modelled as `List Char`, JSON-ish runtime
values as the inductive `JVal`.
-/

set_option maxRecDepth 4000

/-- The JavaScript whitespace set used by `String.prototype.trim`, `\s` in
regular expressions and `parseInt`: ASCII whitespace controls, space, NBSP,
the Unicode space separators, line/paragraph separators and the BOM. -/
def jsWs (c : Char) : Bool :=
  c = ' ' || c = '\t' || c = '\n' || c = '\x0d' || c = '\x0b' || c = '\x0c' ||
  c = '\u00A0' || c = '\u1680' || ('\u2000' ≤ c && c ≤ '\u200A') ||
  c = '\u2028' || c = '\u2029' || c = '\u202F' || c = '\u205F' ||
  c = '\u3000' || c = '\uFEFF'

/-- JavaScript line terminators (the characters `.` does not match in a
regular expression without the `s` flag). -/
def lineTerm (c : Char) : Bool :=
  c = '\n' || c = '\x0d' || c = '\u2028' || c = '\u2029'

/-- JS `String.prototype.trim`: drop JS whitespace from both ends. -/
def jsTrimL (l : List Char) : List Char :=
  ((l.dropWhile jsWs).reverse.dropWhile jsWs).reverse

/-- ASCII uppercasing of one character, matching what
`String.prototype.toUpperCase` does on ASCII input. -/
def upChar (c : Char) : Char := c.toUpper

/-- JS `String.prototype.toUpperCase` restricted to ASCII case mapping. -/
def jsToUpper (l : List Char) : List Char := l.map upChar

/-- Split on the regular expression `/\r?\n/`, as `String.prototype.split`
does in the frontend's multiline-log path: `\n` and `\r\n` separate lines,
a lone `\r` does not. -/
def splitLines : List Char → List (List Char)
  | [] => [[]]
  | '\x0d' :: '\n' :: rest =>
    [] :: splitLines rest
  | '\n' :: rest =>
    [] :: splitLines rest
  | c :: rest =>
    match splitLines rest with
    | [] => [[c]]
    | line :: more => (c :: line) :: more

/-- Value of a decimal digit string (most significant first). -/
def digitsToNat (ds : List Char) : Nat :=
  ds.foldl (fun acc c => acc * 10 + (c.toNat - '0'.toNat)) 0

/-- JavaScript `parseInt(s, 10)`: skip leading whitespace, read an optional
sign and then the maximal run of leading decimal digits; `none` models the
`NaN` result when no digit is found. -/
def parseIntJs (s : List Char) : Option Int :=
  let t := s.dropWhile jsWs
  let signed : Bool × List Char :=
    match t with
    | '-' :: r => (true, r)
    | '+' :: r => (false, r)
    | r => (false, r)
  let ds := signed.2.takeWhile Char.isDigit
  if ds.isEmpty then none
  else some (if signed.1 then -(digitsToNat ds : Int) else (digitsToNat ds : Int))

/-- JSON-ish JavaScript runtime values: the value shapes that flow through
the sheet API responses and request bodies. -/
inductive JVal where
  | str : List Char → JVal
  | num : Int → JVal
  | bool : Bool → JVal
  | null : JVal
  | arr : List JVal → JVal
  | obj : List (List Char × JVal) → JVal

/-- Holds exactly for string values (JS `typeof v === "string"`). -/
def JVal.isStr : JVal → Bool
  | .str _ => true
  | _ => false

mutual

/-- JavaScript `String(v)` coercion for the modelled value shapes: strings
unchanged, numbers in decimal, `true`/`false`, `"null"`, arrays joined with
commas (`Array.prototype.toString`), plain objects as `"[object Object]"`. -/
def jvalToString : JVal → List Char
  | .str s => s
  | .num n => (toString n).toList
  | .bool b => if b then "true".toList else "false".toList
  | .null => "null".toList
  | .arr xs => jvalListToString xs
  | .obj _ => "[object Object]".toList

/-- JS `Array.prototype.join(",")`: elements coerced with `String`, except that
`null` elements render as the empty string. -/
def jvalListToString : List JVal → List Char
  | [] => []
  | [x] =>
    match x with
    | JVal.null => []
    | v => jvalToString v
  | x :: xs =>
    (match x with
     | JVal.null => []
     | v => jvalToString v) ++ ',' :: jvalListToString xs

end

/-- First-match lookup of a property on a JS object's field list
(JS property access `o[k]`; `none` models `undefined`). -/
def lookupF (fs : List (List Char × JVal)) (k : List Char) : Option JVal :=
  (fs.find? (fun p => p.1 = k)).map (fun p => p.2)

/-- JS `"k" in o`: the object carries the property. -/
def hasKey (fs : List (List Char × JVal)) (k : List Char) : Bool :=
  fs.any (fun p => p.1 = k)

/-- JS `v ?? ""`: `null`/`undefined` default to the empty string. -/
def jsDefault (o : Option JVal) : JVal :=
  match o with
  | none => .str []
  | some .null => .str []
  | some v => v

/-! ## Backend: `normalizeImageValue` (src/unnamed/part_001, lines 111-124) -/

/-- Case-insensitively (ASCII, as the regex `i` flag on an ASCII pattern)
strip the pattern characters `p` from the front of `l`, returning the
remainder on success. -/
def dropCI : List Char → List Char → Option (List Char)
  | [], l => some l
  | _ :: _, [] => none
  | p :: ps, c :: cs => if p.toUpper = c.toUpper then dropCI ps cs else none

/-- The regex fragment `(?:,.*)?\)$` checked after the closing quote of the
image formula: either the remainder is exactly `)`, or it is a comma
followed by line-terminator-free characters and a final `)`. -/
def imageTailOk : List Char → Bool
  | [')'] => true
  | ',' :: rest =>
    match rest.getLast? with
    | some ')' => rest.dropLast.all (fun c => !(lineTerm c))
    | _ => false
  | _ => false

/-- Match the backend regex `/^=IMAGE\(\s*"([^"]+)"(?:,.*)?\)$/i` against a
whole (already trimmed) string, returning the captured URL group. -/
def matchImage (l : List Char) : Option (List Char) :=
  match dropCI ("=IMAGE(".toList) l with
  | none => none
  | some rest =>
    match rest.dropWhile jsWs with
    | '"' :: rest2 =>
      match rest2.dropWhile (fun c => c ≠ '"') with
      | '"' :: tail =>
        if (rest2.takeWhile (fun c => c ≠ '"')).isEmpty then none
        else if imageTailOk tail then some (rest2.takeWhile (fun c => c ≠ '"')) else none
      | _ => none
    | _ => none

/-- String branch of the backend's `normalizeImageValue`: trim, then if the
trimmed value matches the image-formula regex return the captured URL,
otherwise return the trimmed value. -/
def normalizeImageStr (s : List Char) : List Char :=
  match matchImage (jsTrimL s) with
  | some url => url
  | none => jsTrimL s

/-- Backend `normalizeImageValue`: `undefined`/`null` become `""`,
non-string values pass through unchanged, strings are trimmed and
image-formula-unwrapped. -/
def normalizeImageValue : Option JVal → JVal
  | none => .str []
  | some .null => .str []
  | some (.str s) => .str (normalizeImageStr s)
  | some v => v

/-! ## Backend: `handleGetState` (src/unnamed/part_001, lines 59-109) -/

/-- One normalized backend log entry (`{row, text}` with 1-based sheet row
numbers starting at 2). -/
structure LogEntryB where
  row : Nat
  text : List Char
deriving DecidableEq, Repr

/-- The log text of one raw row: column index 4, kept as-is when it is a
string, otherwise `String(row[4] ?? "")`. -/
def rowText (row : List JVal) : List Char :=
  match row.get? 4 with
  | some (.str s) => s
  | some .null => []
  | some v => jvalToString v
  | none => []

/-- Backend log collection: map each raw row with its 0-based index to
`{row: index + 2, text: ...}` and keep entries whose text is nonempty and
not whitespace-only. -/
def mkLogs (rows : List (List JVal)) : List LogEntryB :=
  (rows.enum.map (fun p => LogEntryB.mk (p.1 + 2) (rowText p.2))).filter
    (fun e => !e.text.isEmpty && !(jsTrimL e.text).isEmpty)

/-- The normalized get-state response data built by `handleGetState`. -/
structure SheetData where
  A2 : JVal
  B2 : JVal
  C2 : JVal
  C3 : JVal
  imageUrl : JVal
  D2 : JVal
  E2 : JVal
  logs : List LogEntryB

/-- Backend `handleGetState` normalization of the raw row set fetched from
the sheet range `A2:E` (state shaping only; transport is out of scope). -/
def getState (rows : List (List JVal)) : SheetData :=
  let firstRow : Option (List JVal) := rows.head?
  let imageRow : Option (List JVal) := if rows.length > 1 then rows.get? 1 else firstRow
  let imageValue : Option JVal :=
    match imageRow with
    | some r => if 3 ≤ r.length then r.get? 2 else firstRow.bind (fun fr => fr.get? 2)
    | none => firstRow.bind (fun fr => fr.get? 2)
  { A2 := jsDefault (firstRow.bind (fun fr => fr.get? 0))
    B2 := jsDefault (firstRow.bind (fun fr => fr.get? 1))
    C2 := normalizeImageValue (firstRow.bind (fun fr => fr.get? 2))
    C3 := normalizeImageValue imageValue
    imageUrl := normalizeImageValue imageValue
    D2 := jsDefault (firstRow.bind (fun fr => fr.get? 3))
    E2 := jsDefault (firstRow.bind (fun fr => fr.get? 4))
    logs := mkLogs rows }

/-! ## Backend: `handleUpdateCell` (src/unnamed/part_001, lines 126-169) -/

/-- Observable outcome of one `update-cell` request: HTTP status, the
`success` flag of the envelope, and the remote write attempted against the
spreadsheet API (`none` when the handler returned before any remote call). -/
structure UpdateResult where
  status : Nat
  success : Bool
  remoteCall : Option (List Char × JVal)

/-- Backend `handleUpdateCell`: 500 when the sheet id is unset; 400 when the
body's `cell` field is not a string; otherwise a remote single-cell write of
`value ?? ""` to the range `SHEET_NAME!cell`, answering 200 on remote
success and 500 on remote failure.  `remoteOk` stands for the outcome of
the awaited spreadsheet API call. -/
def handleUpdateCell (sheetId : Option (List Char)) (sheetName : List Char)
    (remoteOk : Bool) (body : List (List Char × JVal)) : UpdateResult :=
  match sheetId with
  | none => { status := 500, success := false, remoteCall := none }
  | some _ =>
    match lookupF body ("cell".toList) with
    | some (JVal.str cell) =>
      let range := sheetName ++ '!' :: cell
      let v := jsDefault (lookupF body ("value".toList))
      if remoteOk then { status := 200, success := true, remoteCall := some (range, v) }
      else { status := 500, success := false, remoteCall := some (range, v) }
    | _ => { status := 400, success := false, remoteCall := none }

/-- Modelled from the spec: "syntactically valid cell reference" (A1
notation, e.g. `A2`) — one or more letters followed by one or more digits.
The repository itself contains no such validator; this predicate renders
the spec's words for claim C7. -/
def validCellRef (s : List Char) : Bool :=
  let letters := s.takeWhile Char.isAlpha
  let rest := s.drop letters.length
  !letters.isEmpty && !rest.isEmpty && rest.all Char.isDigit

/-! ## Frontend: `sheetRequest` (src/unnamed/part_002, lines 82-123) -/

/-- An HTTP response from the façade as the frontend sees it: status code,
status text, and the JSON value of the body (`none` when the body is not
valid JSON, in which case `response.json()` rejects and the catch-handler
substitutes `{}`). -/
structure HttpResponse where
  status : Nat
  statusText : List Char
  jsonBody : Option JVal

/-- JS `Response.ok`: status in the 2xx range. -/
def respOk (r : HttpResponse) : Bool :=
  200 ≤ r.status && r.status ≤ 299

/-- Property access on an arbitrary JSON value: only objects yield
properties, every other non-null value gives `undefined`. -/
def lookupJ (j : JVal) (k : List Char) : Option JVal :=
  match j with
  | .obj fs => lookupF fs k
  | _ => none

/-- How one `sheetRequest` call terminates. -/
inductive FetchOutcome where
  | thrown : List Char → FetchOutcome
  | typeErr : FetchOutcome
  | ok : JVal → FetchOutcome

/-- Frontend `sheetRequest` response handling: throw on non-2xx status;
parse the body, substituting `{}` when it is not valid JSON; accessing
`.success` on a JSON `null` body throws a TypeError; throw the server
message when `success === false`; otherwise resolve with `json.data ?? json`. -/
def sheetRequest (r : HttpResponse) : FetchOutcome :=
  if !(respOk r) then
    .thrown ("Sheet request failed: ".toList ++ (toString r.status).toList ++ ' ' :: r.statusText)
  else
    match r.jsonBody.getD (JVal.obj []) with
    | JVal.null => .typeErr
    | json =>
      match lookupJ json ("success".toList) with
      | some (JVal.bool false) =>
        .thrown (match lookupJ json ("error".toList) with
          | some (JVal.str e) => e
          | _ => "Sheet request returned an error.".toList)
      | _ =>
        .ok (match lookupJ json ("data".toList) with
          | some JVal.null => json
          | some d => d
          | none => json)

/-- The JSON body `{action, ...payload}` that `sheetRequest` posts to the
façade. -/
def sheetRequestBody (action : List Char) (payload : List (List Char × JVal)) :
    List (List Char × JVal) :=
  ("action".toList, JVal.str action) :: payload

/-- Body of the write issued by the frontend `submitAnswer`: an
`update-cell` action with `cell="D2"` and `value=answer`, whatever the
answer string is. -/
def submitAnswerBody (answer : List Char) : List (List Char × JVal) :=
  sheetRequestBody ("update-cell".toList)
    [("cell".toList, JVal.str ("D2".toList)), ("value".toList, JVal.str answer)]

/-! ## Frontend: `collectLogs` (src/unnamed/part_002, lines 143-214) -/

/-- One frontend log entry; row numbers come from `parseInt` and may be any
integer. -/
structure LogEntryF where
  row : Int
  text : List Char
deriving DecidableEq, Repr

/-- The `entries` map of `collectLogs`: a JS `Map<number, string>` as an
association list in insertion order. -/
abbrev EMap := List (Int × List Char)

/-- JS `Map.prototype.set`: overwrite the value in place when the key exists
(keys are unique in a JS `Map`), otherwise append the binding. -/
def mapSet : EMap → Int → List Char → EMap
  | [], k, v => [(k, v)]
  | p :: m, k, v => if p.1 = k then (k, v) :: m else p :: mapSet m k v

/-- JS `Map.prototype.get` (used here to read the final bindings). -/
def mapGet : EMap → Int → Option (List Char)
  | [], _ => none
  | p :: m, k => if p.1 = k then some p.2 else mapGet m k

/-- The `assign` closure of `collectLogs`: record the binding only for
string values whose trimmed text is nonempty. -/
def assign (m : EMap) (row : Int) (v : JVal) : EMap :=
  match v with
  | .str s => if !(jsTrimL s).isEmpty then mapSet m row s else m
  | _ => m

/-- The row/text candidate extracted from one array item by the `fromArray`
closure: a string item maps to `(index + 2, item)`; an object item carrying
a `row`, `index` or `text` property maps through the `||`-chain of row
candidates (JS falsy fallthrough on `false`, `0` and `NaN`) and the
`text`-before-`value` text candidate, kept only when the text is truthy;
anything else is skipped. -/
def itemAssign (index : Nat) (item : JVal) : Option (Int × List Char) :=
  match item with
  | .str s => some ((index : Int) + 2, s)
  | .obj fs =>
    if hasKey fs ("row".toList) || hasKey fs ("index".toList) || hasKey fs ("text".toList) then
      let rowF := lookupF fs ("row".toList)
      let indexF := lookupF fs ("index".toList)
      let e1 : Option Int := match rowF with
        | some (.num n) => some n
        | _ => none
      let e2 : Option Int := parseIntJs (match rowF with
        | none => "undefined".toList
        | some v => jvalToString v)
      let e3 : Option Int := match indexF with
        | some (.num n) => some (n + 2)
        | _ => none
      let e4 : Option Int := (parseIntJs (match indexF with
        | none => (toString (index : Int)).toList
        | some JVal.null => (toString (index : Int)).toList
        | some v => jvalToString v)).map (fun p => p + 2)
      let truthy : Option Int → Option Int := fun o => o.bind (fun n => if n = 0 then none else some n)
      let rowCandidate : Int :=
        ((truthy e1).orElse (fun _ => (truthy e2).orElse (fun _ =>
          (truthy e3).orElse (fun _ => truthy e4)))).getD ((index : Int) + 2)
      let textCandidate : Option (List Char) :=
        match lookupF fs ("text".toList) with
        | some (.str s) => some s
        | _ =>
          match lookupF fs ("value".toList) with
          | some (.str s) => some s
          | _ => none
      match textCandidate with
      | some t => if !t.isEmpty then some (rowCandidate, t) else none
      | none => none
    else none
  | _ => none

/-- Body of the `forEach` in `fromArray`: run the item's candidate
extraction and, when it produced one, `assign` it. -/
def itemStep (m : EMap) (index : Nat) (item : JVal) : EMap :=
  match itemAssign index item with
  | some (k, t) => assign m k (.str t)
  | none => m

/-- The `fromArray` closure: fold `itemStep` over the array with 0-based
indices. -/
def fromArray (m : EMap) (arr : List JVal) : EMap :=
  (arr.enum).foldl (fun m p => itemStep m p.1 p.2) m

/-- The trimmed, blank-filtered lines of the multiline `log` string path. -/
def logLines (s : List Char) : List (List Char) :=
  ((splitLines s).map jsTrimL).filter (fun l => !l.isEmpty)

/-- Case-insensitive match of the flat key pattern `/^E(\d+)$/i`, returning
the parsed row number of the captured digit group. -/
def matchEKey (k : List Char) : Option Int :=
  match k with
  | c :: rest =>
    if (c = 'E' || c = 'e') && !rest.isEmpty && rest.all Char.isDigit then
      some (digitsToNat rest : Int)
    else none
  | [] => none

/-- The `entries` map after the four extraction passes of `collectLogs`:
the canonical `logs` array, a legacy `log` array, a multiline `log` string,
and flat `E<N>` keys. -/
def entriesOf (fs : List (List Char × JVal)) : EMap :=
  let m0 : EMap := []
  let m1 := match lookupF fs ("logs".toList) with
    | some (.arr xs) => fromArray m0 xs
    | _ => m0
  let m2 := match lookupF fs ("log".toList) with
    | some (.arr xs) => fromArray m1 xs
    | _ => m1
  let m3 := match lookupF fs ("log".toList) with
    | some (.str s) =>
      ((logLines s).enum).foldl (fun m p => assign m ((p.1 : Int) + 2) (.str p.2)) m2
    | _ => m2
  fs.foldl (fun m p =>
    match matchEKey p.1 with
    | some r => assign m r p.2
    | none => m) m3

/-- Frontend `collectLogs`: run the four extraction passes, then sort the
collected bindings ascending by row (`(a, b) => a[0] - b[0]`) and repack
them as `{row, text}` entries. -/
def collectLogs (fs : List (List Char × JVal)) : List LogEntryF :=
  (List.insertionSort (fun a b => a.1 ≤ b.1) (entriesOf fs)).map
    (fun p => LogEntryF.mk p.1 p.2)

/-! ## Frontend: `useSheetState` polling controller
(src/unnamed/part_002, lines 230-286) -/

/-- The polling interval default (`DEFAULT_POLL_INTERVAL`), in
milliseconds. -/
def DEFAULT_POLL_INTERVAL : Nat := 2000

/-- The state `fetchSheetState` resolves with (field re-derivation is the
Sheet Client's job; the polling controller only inspects `action`). -/
structure SheetState where
  action : Option (List Char)
  time : Option (List Char)
  imageUrl : Option (List Char)
  answer : Option (List Char)
  log : Option (List Char)
  logs : List LogEntryF

/-- The browser's interval-timer registry: the next id `setInterval` will
return (ids start at 1 — JS timer ids are nonzero, which matters because
`stopPolling` tests the ref for truthiness) and the ids of the intervals
currently scheduled. -/
structure TimerWorld where
  nextId : Nat
  active : List Nat

/-- JS `window.setInterval`: allocate a fresh id and schedule it. -/
def setIntervalT (w : TimerWorld) : TimerWorld × Nat :=
  ({ nextId := w.nextId + 1, active := w.active ++ [w.nextId] }, w.nextId)

/-- JS `window.clearInterval`. -/
def clearIntervalT (w : TimerWorld) (id : Nat) : TimerWorld :=
  { w with active := w.active.erase id }

/-- The hook's own state cells: `state`, `loading`, `error`, `polling` and
the `timerRef`. -/
structure HookState where
  stateVal : Option SheetState
  loading : Bool
  error : Option (List Char)
  polling : Bool
  timer : Option Nat

/-- Hook `stopPolling`: clear the interval held in the ref (if any), drop the
ref, and leave `Polling`. -/
def stopPolling (w : TimerWorld) (s : HookState) : TimerWorld × HookState :=
  let w :=
    match s.timer with
    | some id => clearIntervalT w id
    | none => w
  (w, { s with timer := none, polling := false })

/-- One completed `load` cycle, given the settled result of
`fetchSheetState()`: set `loading`, clear the error; on success store the
state and stop polling unless the trimmed, upper-cased `action` is exactly
`"RUN"`; on failure record the message and stop polling; finally clear
`loading`. -/
def load (fetchResult : Except (List Char) SheetState) (w : TimerWorld)
    (s : HookState) : TimerWorld × HookState :=
  let s := { s with loading := true, error := none }
  match fetchResult with
  | .ok st =>
    let s := { s with stateVal := some st }
    let ws :=
      if jsToUpper (jsTrimL (st.action.getD [])) ≠ "RUN".toList then
        stopPolling w s
      else (w, s)
    (ws.1, { ws.2 with loading := false })
  | .error msg =>
    let s := { s with error := some msg }
    let ws := stopPolling w s
    (ws.1, { ws.2 with loading := false })

/-- The externally visible scheduling acts of `startPolling`. -/
inductive PollEvent where
  | fetchNow : PollEvent
  | schedule : Nat → PollEvent
deriving DecidableEq, Repr

/-- Hook `startPolling`: stop any running interval first, raise `polling`, fire
one immediate fetch, and schedule a repeating fetch every `pollInterval`
milliseconds, keeping the new interval id in the ref. -/
def startPolling (pollInterval : Nat) (w : TimerWorld) (s : HookState) :
    TimerWorld × HookState × List PollEvent :=
  let ws := stopPolling w s
  let s := { ws.2 with polling := true }
  let wi := setIntervalT ws.1
  (wi.1, { s with timer := some wi.2 },
    [PollEvent.fetchNow, PollEvent.schedule pollInterval])

/-! ## General list lemmas used below -/

theorem dropWhile_self_idem (p : Char → Bool) (l : List Char) :
    (l.dropWhile p).dropWhile p = l.dropWhile p := by
  induction l with
  | nil => rfl
  | cons c l ih =>
    by_cases h : p c
    · simp [List.dropWhile, h, ih]
    · simp [List.dropWhile, h]

theorem length_dropWhile_le' (p : Char → Bool) (l : List Char) :
    (l.dropWhile p).length ≤ l.length := by
  induction l with
  | nil => simp
  | cons c l ih =>
    by_cases h : p c
    · simp only [List.dropWhile, h]
      exact Nat.le_succ_of_le ih
    · simp [List.dropWhile, h]

theorem dropWhile_append_self (p : Char → Bool) (x y : List Char)
    (h : (x ++ y).dropWhile p = x ++ y) : x.dropWhile p = x := by
  cases x with
  | nil => rfl
  | cons c x' =>
    by_cases hc : p c
    · exfalso
      have h1 : ((c :: x') ++ y).dropWhile p = (x' ++ y).dropWhile p := by
        simp [List.dropWhile, hc]
      have h2 := length_dropWhile_le' p (x' ++ y)
      rw [h1] at h
      rw [congrArg List.length h] at h2
      simp at h2
    · simp [List.dropWhile, hc]

theorem dropWhile_suffix_ex (p : Char → Bool) (l : List Char) :
    ∃ t, l = t ++ l.dropWhile p := by
  induction l with
  | nil => exact ⟨[], rfl⟩
  | cons c l ih =>
    by_cases h : p c
    · obtain ⟨t, ht⟩ := ih
      refine ⟨c :: t, ?_⟩
      simp [List.dropWhile, h]
      exact ht
    · exact ⟨[], by simp [List.dropWhile, h]⟩

theorem mem_dropWhile_sub (p : Char → Bool) (l : List Char) (c : Char)
    (h : c ∈ l.dropWhile p) : c ∈ l := by
  obtain ⟨t, ht⟩ := dropWhile_suffix_ex p l
  rw [ht]
  exact List.mem_append_right t h

theorem jsTrimL_idem (l : List Char) : jsTrimL (jsTrimL l) = jsTrimL l := by
  unfold jsTrimL
  set a := l.dropWhile jsWs with ha
  set b := a.reverse.dropWhile jsWs with hb
  have hbrev : b.reverse.dropWhile jsWs = b.reverse := by
    obtain ⟨t, ht⟩ := dropWhile_suffix_ex jsWs a.reverse
    have haeq : a = b.reverse ++ t.reverse := by
      have := congrArg List.reverse ht
      simpa using this
    have hP : a.dropWhile jsWs = a := by
      rw [ha]
      exact dropWhile_self_idem jsWs l
    rw [haeq] at hP
    exact dropWhile_append_self jsWs b.reverse t.reverse hP
  rw [hbrev]
  rw [List.reverse_reverse]
  rw [hb, dropWhile_self_idem jsWs a.reverse]

theorem mem_jsTrimL_sub (l : List Char) (c : Char) (h : c ∈ jsTrimL l) : c ∈ l := by
  unfold jsTrimL at h
  rw [List.mem_reverse] at h
  have h1 := mem_dropWhile_sub jsWs (l.dropWhile jsWs).reverse c h
  rw [List.mem_reverse] at h1
  exact mem_dropWhile_sub jsWs l c h1

/-! ## Lemmas about image-formula unwrapping -/

theorem dropCI_mem (p : List Char) :
    ∀ (m rest : List Char), dropCI p m = some rest → ∀ c ∈ rest, c ∈ m := by
  induction p with
  | nil =>
    intro m rest h c hc
    simp [dropCI] at h
    rwa [h]
  | cons q qs ih =>
    intro m rest h c hc
    cases m with
    | nil => simp [dropCI] at h
    | cons c0 m' =>
      simp only [dropCI] at h
      by_cases he : q.toUpper = c0.toUpper
      · rw [if_pos he] at h
        exact List.mem_cons_of_mem c0 (ih m' rest h c hc)
      · rw [if_neg he] at h
        exact absurd h (by simp)

theorem matchImage_some_quote {m u : List Char} (h : matchImage m = some u) :
    '"' ∈ m ∧ '"' ∉ u := by
  unfold matchImage at h
  split at h
  · exact absurd h (by simp)
  next rest hd =>
    split at h
    next rest2 hw =>
      have hqm : '"' ∈ m := by
        apply dropCI_mem _ _ _ hd
        apply mem_dropWhile_sub jsWs rest
        rw [hw]
        exact List.mem_cons_self _ _
      refine ⟨hqm, ?_⟩
      split at h
      next tail hq =>
        split at h
        · exact absurd h (by simp)
        · split at h
          · have hu : u = rest2.takeWhile (fun c => c ≠ '"') :=
              (Option.some.injEq _ _ ▸ h).symm
            intro hmem
            rw [hu] at hmem
            have := List.mem_takeWhile_imp hmem
            simp at this
          · exact absurd h (by simp)
      next => exact absurd h (by simp)
    next => exact absurd h (by simp)

theorem normalizeImageStr_double (s : List Char) :
    normalizeImageStr (normalizeImageStr s) = jsTrimL (normalizeImageStr s) := by
  cases hm : matchImage (jsTrimL s) with
  | some u =>
    have h1 : normalizeImageStr s = u := by
      unfold normalizeImageStr
      rw [hm]
    rw [h1]
    have hq := (matchImage_some_quote hm).2
    unfold normalizeImageStr
    cases hmu : matchImage (jsTrimL u) with
    | none => rfl
    | some u' =>
      exfalso
      exact hq (mem_jsTrimL_sub u '"' (matchImage_some_quote hmu).1)
  | none =>
    have h1 : normalizeImageStr s = jsTrimL s := by
      unfold normalizeImageStr
      rw [hm]
    rw [h1]
    unfold normalizeImageStr
    rw [jsTrimL_idem, hm]

/-- C4 counterexample: on the input string `=IMAGE(" a")` the unwrapped URL
keeps its leading space, so a second application of `normalizeImageValue`
trims it again and the results differ — the function is not idempotent on
every string (the string branch is `normalizeImageStr`; the `rfl`
conjuncts record that `normalizeImageValue` on a string value is exactly
that branch). -/
theorem normalizeImage_not_idempotent_cex :
    normalizeImageStr (normalizeImageStr ("=IMAGE(\" a\")".toList)) ≠
      normalizeImageStr ("=IMAGE(\" a\")".toList) ∧
    normalizeImageValue (some (JVal.str ("=IMAGE(\" a\")".toList))) =
      JVal.str (normalizeImageStr ("=IMAGE(\" a\")".toList)) ∧
    normalizeImageValue (some (JVal.str (normalizeImageStr ("=IMAGE(\" a\")".toList)))) =
      JVal.str (normalizeImageStr (normalizeImageStr ("=IMAGE(\" a\")".toList))) :=
  ⟨by decide, rfl, rfl⟩

/-- C4 (amended): image-formula unwrapping is idempotent up to trimming —
applying `normalizeImageValue` twice to any string equals trimming the
single application (so it is idempotent exactly when the extracted URL has
no surrounding whitespace, and a non-formula string is always a fixed
point after one application). -/
theorem normalizeImage_double_is_trim :
    (∀ s : List Char,
      normalizeImageStr (normalizeImageStr s) = jsTrimL (normalizeImageStr s)) ∧
    (∀ s : List Char,
      normalizeImageValue (some (normalizeImageValue (some (JVal.str s)))) =
        JVal.str (jsTrimL (normalizeImageStr s))) := by
  refine ⟨normalizeImageStr_double, fun s => ?_⟩
  show JVal.str (normalizeImageStr (normalizeImageStr s)) = _
  rw [normalizeImageStr_double]

/-- C9: for every answer string — three digits or not — `submitAnswer`
issues an `update-cell` write with `cell="D2"` and `value=answer`; the body
construction is unconditional, so the function performs no validation of
the answer (illustrated on the non-3-digit answer `"zz9"`). -/
theorem submitAnswer_unvalidated_write :
    (∀ answer : List Char,
      lookupF (submitAnswerBody answer) ("action".toList) =
        some (JVal.str ("update-cell".toList)) ∧
      lookupF (submitAnswerBody answer) ("cell".toList) =
        some (JVal.str ("D2".toList)) ∧
      lookupF (submitAnswerBody answer) ("value".toList) =
        some (JVal.str answer)) ∧
    lookupF (submitAnswerBody ("zz9".toList)) ("value".toList) =
      some (JVal.str ("zz9".toList)) := by
  constructor
  · intro answer
    refine ⟨?_, ?_, ?_⟩ <;>
      simp [submitAnswerBody, sheetRequestBody, lookupF, List.find?]
  · rfl

/-- C8: `stopPolling` is idempotent — a second consecutive call changes
nothing and the ref holds no timer afterwards; `startPolling` first clears
any existing timer, fires one immediate fetch, then schedules the repeating
fetch at the given interval (default `DEFAULT_POLL_INTERVAL = 2000` ms);
when the timer registry agrees with the ref, restarting leaves exactly the
one new interval active — never two. -/
theorem stopPolling_idem_startPolling_single :
    (∀ (w : TimerWorld) (s : HookState),
      stopPolling (stopPolling w s).1 (stopPolling w s).2 = stopPolling w s) ∧
    (∀ (w : TimerWorld) (s : HookState),
      (stopPolling w s).2.timer = none ∧ (stopPolling w s).2.polling = false) ∧
    DEFAULT_POLL_INTERVAL = 2000 ∧
    (∀ (i : Nat) (w : TimerWorld) (s : HookState),
      (startPolling i w s).2.2 = [PollEvent.fetchNow, PollEvent.schedule i]) ∧
    (∀ (i : Nat) (w : TimerWorld) (s : HookState),
      w.active = (match s.timer with | some id => [id] | none => []) →
      (startPolling i w s).1.active = [w.nextId] ∧
      (startPolling i w s).2.1.timer = some w.nextId) := by
  refine ⟨?_, ?_, rfl, ?_, ?_⟩
  · intro w s
    cases s with
    | mk sv ld er pl tm => cases tm <;> rfl
  · intro w s
    exact ⟨rfl, rfl⟩
  · intro i w s
    rfl
  · intro i w s h
    cases s with
    | mk sv ld er pl tm =>
      cases tm with
      | none =>
        simp only at h
        refine ⟨?_, rfl⟩
        simp [startPolling, stopPolling, setIntervalT, h]
      | some id =>
        simp only at h
        refine ⟨?_, rfl⟩
        simp [startPolling, stopPolling, setIntervalT, clearIntervalT, h]

/-- C8 witness: concretely, with interval id 5 active and held in the ref,
restarting at the default interval leaves exactly the one fresh interval
id 7 active. -/
theorem stopPolling_idem_startPolling_single_witness :
    (startPolling 2000 (TimerWorld.mk 7 [5])
        (HookState.mk none false none true (some 5))).1.active = [7] ∧
    (startPolling 2000 (TimerWorld.mk 7 [5])
        (HookState.mk none false none true (some 5))).2.1.timer = some 7 :=
  stopPolling_idem_startPolling_single.2.2.2.2 2000 (TimerWorld.mk 7 [5])
    (HookState.mk none false none true (some 5)) rfl

/-- C1: when a fetch completes successfully, the controller leaves
`Polling` (polling flag lowered, timer ref cleared) exactly when the
trimmed, case-folded status is not `"RUN"`; when it is `"RUN"` after trim
and upper-casing, the polling flag and timer are untouched. -/
theorem load_stops_unless_run (w : TimerWorld) (s : HookState) (st : SheetState) :
    (jsToUpper (jsTrimL (st.action.getD [])) ≠ "RUN".toList →
      (load (Except.ok st) w s).2.polling = false ∧
      (load (Except.ok st) w s).2.timer = none) ∧
    (jsToUpper (jsTrimL (st.action.getD [])) = "RUN".toList →
      (load (Except.ok st) w s).2.polling = s.polling ∧
      (load (Except.ok st) w s).2.timer = s.timer) := by
  constructor
  · intro h
    rw [show ("RUN".toList) = ['R', 'U', 'N'] from rfl] at h
    simp [load, h, stopPolling]
  · intro h
    rw [show ("RUN".toList) = ['R', 'U', 'N'] from rfl] at h
    simp [load, h]

/-- C1 witness: with the fetched status `"run "` (trailing space, lower
case) a polling controller with an active timer stays in `Polling`; with
status `"DONE"` it drops to `Idle` (timer cleared, polling false). -/
theorem load_stops_unless_run_witness :
    ((load (Except.ok (SheetState.mk (some ("DONE".toList)) none none none none []))
        (TimerWorld.mk 2 [1]) (HookState.mk none false none true (some 1))).2.polling = false ∧
     (load (Except.ok (SheetState.mk (some ("DONE".toList)) none none none none []))
        (TimerWorld.mk 2 [1]) (HookState.mk none false none true (some 1))).2.timer = none) ∧
    ((load (Except.ok (SheetState.mk (some ("run ".toList)) none none none none []))
        (TimerWorld.mk 2 [1]) (HookState.mk none false none true (some 1))).2.polling = true ∧
     (load (Except.ok (SheetState.mk (some ("run ".toList)) none none none none []))
        (TimerWorld.mk 2 [1]) (HookState.mk none false none true (some 1))).2.timer = some 1) :=
  ⟨(load_stops_unless_run (TimerWorld.mk 2 [1]) (HookState.mk none false none true (some 1))
      (SheetState.mk (some ("DONE".toList)) none none none none [])).1 (by decide),
   (load_stops_unless_run (TimerWorld.mk 2 [1]) (HookState.mk none false none true (some 1))
      (SheetState.mk (some ("run ".toList)) none none none none [])).2 (by decide)⟩

/-- The image-candidate cell in the words of the spec (claim C3): the third
column of the second row when the second row is present and that cell
exists, otherwise the third column of the first row. -/
def specImageCell (rows : List (List JVal)) : Option JVal :=
  match rows.get? 1 with
  | some r =>
    match r.get? 2 with
    | some v => some v
    | none => rows.head?.bind (fun fr => fr.get? 2)
  | none => rows.head?.bind (fun fr => fr.get? 2)

/-- The two-row example of the spec's testable property for C3. -/
def exampleRows : List (List JVal) :=
  [[JVal.str ("RUN".toList), JVal.str ("t1".toList),
    JVal.str ("http://x/img.png".toList), JVal.str [], JVal.str []],
   [JVal.str ("RUN".toList), JVal.str ("t1".toList),
    JVal.str ("http://y/img2.png".toList), JVal.str [], JVal.str ("line2".toList)]]

theorem getState_imageValue_eq_spec (rows : List (List JVal)) :
    (getState rows).imageUrl = normalizeImageValue (specImageCell rows) := by
  cases rows with
  | nil => rfl
  | cons r0 rest =>
    cases rest with
    | nil =>
      by_cases h3 : 3 ≤ r0.length
      · cases hg : r0[2]? with
        | none =>
          rw [List.getElem?_eq_none_iff] at hg
          omega
        | some v => simp [getState, specImageCell, h3, hg]
      · have hg : r0[2]? = none := List.getElem?_eq_none_iff.mpr (by omega)
        simp [getState, specImageCell, h3, hg]
    | cons r1 rest2 =>
      by_cases h3 : 3 ≤ r1.length
      · cases hg : r1[2]? with
        | none =>
          rw [List.getElem?_eq_none_iff] at hg
          omega
        | some v => simp [getState, specImageCell, h3, hg]
      · have hg : r1[2]? = none := List.getElem?_eq_none_iff.mpr (by omega)
        simp [getState, specImageCell, h3, hg]

/-- C3: the normalized `imageUrl` and `C3` fields are identical; both are
the image-formula-unwrapped third-column cell of the second row when that
row and cell exist, falling back to the first row's third column, and to
the empty string when no such cell exists at all; on the spec's two-row
example this selects the second row's image and the single `line2` log. -/
theorem getState_imageUrl_and_C3 :
    (∀ rows : List (List JVal), (getState rows).imageUrl = (getState rows).C3) ∧
    (∀ rows : List (List JVal),
      (getState rows).imageUrl = normalizeImageValue (specImageCell rows)) ∧
    normalizeImageValue none = JVal.str [] ∧
    (getState exampleRows).imageUrl = JVal.str ("http://y/img2.png".toList) ∧
    (getState exampleRows).logs = [LogEntryB.mk 3 ("line2".toList)] := by
  refine ⟨fun rows => rfl, getState_imageValue_eq_spec, rfl, ?_, ?_⟩
  · rfl
  · decide

theorem jsDefault_isStr_of (o : Option JVal) (h : ∀ c ∈ o, c.isStr = true) :
    (jsDefault o).isStr = true := by
  cases o with
  | none => rfl
  | some c =>
    have := h c rfl
    cases c <;> simp_all [jsDefault, JVal.isStr]

theorem normalizeImageValue_isStr_of (o : Option JVal) (h : ∀ c ∈ o, c.isStr = true) :
    (normalizeImageValue o).isStr = true := by
  cases o with
  | none => rfl
  | some c =>
    have := h c rfl
    cases c <;> simp_all [normalizeImageValue, JVal.isStr]

/-- C6 counterexample: with the single raw row `[42]` (a numeric
unformatted cell), the normalized `A2` field is the number `42`, not a
string — the handler applies no string coercion to the lettered fields. -/
theorem getState_A2_number_cex :
    (getState [[JVal.num 42]]).A2 = JVal.num 42 ∧
    ((getState [[JVal.num 42]]).A2).isStr = false :=
  ⟨rfl, rfl⟩

/-- C6 (amended): `A2`, `B2`, `D2` and `E2` are the raw first-row cells
with only an `?? ""` default for missing/null cells — no string coercion,
so numeric cells surface as numbers — and `C2` is the image-normalized
first-row third cell; the five fields are strings whenever every populated
cell of the first row is itself a string (in particular for an empty row
set). -/
theorem getState_letter_fields :
    (∀ rows : List (List JVal),
      (getState rows).A2 = jsDefault (rows.head?.bind (fun fr => fr.get? 0)) ∧
      (getState rows).B2 = jsDefault (rows.head?.bind (fun fr => fr.get? 1)) ∧
      (getState rows).C2 = normalizeImageValue (rows.head?.bind (fun fr => fr.get? 2)) ∧
      (getState rows).D2 = jsDefault (rows.head?.bind (fun fr => fr.get? 3)) ∧
      (getState rows).E2 = jsDefault (rows.head?.bind (fun fr => fr.get? 4))) ∧
    (∀ rows : List (List JVal),
      ((rows.head?.getD []).all JVal.isStr) = true →
      ((getState rows).A2).isStr = true ∧ ((getState rows).B2).isStr = true ∧
      ((getState rows).C2).isStr = true ∧ ((getState rows).D2).isStr = true ∧
      ((getState rows).E2).isStr = true) := by
  constructor
  · intro rows
    exact ⟨rfl, rfl, rfl, rfl, rfl⟩
  · intro rows h
    cases rows with
    | nil => exact ⟨rfl, rfl, rfl, rfl, rfl⟩
    | cons r0 rest =>
      have hr : ∀ c ∈ r0, c.isStr = true := by
        intro c hc
        exact List.all_eq_true.mp h c hc
      have hcell : ∀ i : Nat, ∀ c ∈ ((some r0).bind (fun fr => fr.get? i)), c.isStr = true := by
        intro i c hc
        simp only [Option.bind_some] at hc
        exact hr c (List.get?_mem hc)
      refine ⟨?_, ?_, ?_, ?_, ?_⟩
      · exact jsDefault_isStr_of _ (hcell 0)
      · exact jsDefault_isStr_of _ (hcell 1)
      · exact normalizeImageValue_isStr_of _ (hcell 2)
      · exact jsDefault_isStr_of _ (hcell 3)
      · exact jsDefault_isStr_of _ (hcell 4)

/-- C6 witness: on an all-string single-row set each lettered field is a
string. -/
theorem getState_letter_fields_witness :
    ((getState [[JVal.str ("RUN".toList), JVal.str ("t".toList), JVal.str ("u".toList),
        JVal.str ("1".toList), JVal.str ("x".toList)]]).A2).isStr = true ∧
    ((getState [[JVal.str ("RUN".toList), JVal.str ("t".toList), JVal.str ("u".toList),
        JVal.str ("1".toList), JVal.str ("x".toList)]]).B2).isStr = true ∧
    ((getState [[JVal.str ("RUN".toList), JVal.str ("t".toList), JVal.str ("u".toList),
        JVal.str ("1".toList), JVal.str ("x".toList)]]).C2).isStr = true ∧
    ((getState [[JVal.str ("RUN".toList), JVal.str ("t".toList), JVal.str ("u".toList),
        JVal.str ("1".toList), JVal.str ("x".toList)]]).D2).isStr = true ∧
    ((getState [[JVal.str ("RUN".toList), JVal.str ("t".toList), JVal.str ("u".toList),
        JVal.str ("1".toList), JVal.str ("x".toList)]]).E2).isStr = true :=
  getState_letter_fields.2
    [[JVal.str ("RUN".toList), JVal.str ("t".toList), JVal.str ("u".toList),
      JVal.str ("1".toList), JVal.str ("x".toList)]] rfl

/-- Holds exactly when an optional value is a string. -/
def isStrOpt : Option JVal → Bool
  | some (JVal.str _) => true
  | _ => false

/-- C7 counterexample: the empty string is not a syntactically valid cell
reference, yet `handleUpdateCell` does not reject it — it reaches the
remote write (range `Login_NhutPT!`) and answers 200, not a 4xx
ValidationError; the handler's only guard is `typeof cell !== "string"`. -/
theorem handleUpdateCell_no_syntax_validation_cex :
    validCellRef [] = false ∧
    (handleUpdateCell (some ("sid".toList)) ("Login_NhutPT".toList) true
        [("action".toList, JVal.str ("update-cell".toList)),
         ("cell".toList, JVal.str []),
         ("value".toList, JVal.str ("123".toList))]).remoteCall =
      some ("Login_NhutPT!".toList, JVal.str ("123".toList)) ∧
    (handleUpdateCell (some ("sid".toList)) ("Login_NhutPT".toList) true
        [("action".toList, JVal.str ("update-cell".toList)),
         ("cell".toList, JVal.str []),
         ("value".toList, JVal.str ("123".toList))]).status = 200 :=
  ⟨rfl, rfl, rfl⟩

/-- C7 (amended): the only client-input validation in `handleUpdateCell` is
a type check — a missing or non-string `cell` field yields the 400
`success:false` response with no remote call; every string `cell`, even one
that is not a syntactically valid cell reference, is passed straight to the
remote write (whose failure surfaces as a 500 UpstreamError, not a 4xx). -/
theorem handleUpdateCell_validation (sid : List Char) (sheetName : List Char)
    (remoteOk : Bool) (body : List (List Char × JVal)) :
    (isStrOpt (lookupF body ("cell".toList)) = false →
      handleUpdateCell (some sid) sheetName remoteOk body =
        UpdateResult.mk 400 false none) ∧
    (∀ cell : List Char, lookupF body ("cell".toList) = some (JVal.str cell) →
      (handleUpdateCell (some sid) sheetName remoteOk body).remoteCall =
        some (sheetName ++ '!' :: cell, jsDefault (lookupF body ("value".toList))) ∧
      (handleUpdateCell (some sid) sheetName remoteOk body).status =
        (if remoteOk then 200 else 500) ∧
      (handleUpdateCell (some sid) sheetName remoteOk body).success = remoteOk) := by
  constructor
  · intro h
    unfold handleUpdateCell
    cases hc : lookupF body ("cell".toList) with
    | none => rfl
    | some v =>
      rw [hc] at h
      cases v <;> simp_all [isStrOpt]
  · intro cell hc
    unfold handleUpdateCell
    rw [hc]
    cases remoteOk <;> exact ⟨rfl, rfl, rfl⟩

/-- C7 witness: a body without a `cell` field is rejected with the 400
response before any remote call, and the invalid-as-reference string cell
`"!!!"` is nevertheless written remotely. -/
theorem handleUpdateCell_validation_witness :
    handleUpdateCell (some ("sid".toList)) ("S".toList) true
        [("action".toList, JVal.str ("update-cell".toList))] =
      UpdateResult.mk 400 false none ∧
    (handleUpdateCell (some ("sid".toList)) ("S".toList) true
        [("cell".toList, JVal.str ("!!!".toList))]).remoteCall =
      some ("S".toList ++ '!' :: "!!!".toList,
        jsDefault (lookupF [("cell".toList, JVal.str ("!!!".toList))] ("value".toList))) :=
  ⟨(handleUpdateCell_validation ("sid".toList) ("S".toList) true
      [("action".toList, JVal.str ("update-cell".toList))]).1 rfl,
   ((handleUpdateCell_validation ("sid".toList) ("S".toList) true
      [("cell".toList, JVal.str ("!!!".toList))]).2 ("!!!".toList) rfl).1⟩

/-- Holds exactly when the fetch resolved (no exception was thrown). -/
def isOkOutcome : FetchOutcome → Bool
  | .ok _ => true
  | _ => false

/-- Holds exactly for the JSON value `null`. -/
def isNullJ : JVal → Bool
  | .null => true
  | _ => false

/-- Holds when the envelope's `success` property is exactly the boolean
`false` (strict `===` comparison). -/
def successIsFalse (j : JVal) : Bool :=
  match lookupJ j ("success".toList) with
  | some (JVal.bool false) => true
  | _ => false

/-- C10 counterexample: a 2xx response whose body is the valid JSON `null`
has no `success` field, yet `sheetRequest` does not treat it as success —
the property access `json.success` on `null` throws a TypeError. -/
theorem sheetRequest_null_body_cex :
    respOk (HttpResponse.mk 200 ("OK".toList) (some JVal.null)) = true ∧
    lookupJ ((HttpResponse.mk 200 ("OK".toList) (some JVal.null)).jsonBody.getD (JVal.obj []))
      ("success".toList) = none ∧
    sheetRequest (HttpResponse.mk 200 ("OK".toList) (some JVal.null)) =
      FetchOutcome.typeErr :=
  ⟨rfl, rfl, rfl⟩

/-- C10 (amended): `sheetRequest` resolves successfully exactly when the
HTTP status is 2xx, the parsed body is not JSON `null` (on a `null` body
the `json.success` access throws a TypeError), and the envelope's `success`
field is not exactly `false`; a 2xx body that is not valid JSON is
replaced by `{}` and treated as success, and an envelope without a `data`
field resolves with the entire envelope object. -/
theorem sheetRequest_throw_conditions (r : HttpResponse) :
    (isOkOutcome (sheetRequest r) =
      (respOk r && !(isNullJ (r.jsonBody.getD (JVal.obj []))) &&
        !(successIsFalse (r.jsonBody.getD (JVal.obj []))))) ∧
    (respOk r = true → r.jsonBody = none →
      sheetRequest r = FetchOutcome.ok (JVal.obj [])) ∧
    (∀ j : JVal, r.jsonBody = some j → respOk r = true → isNullJ j = false →
      lookupJ j ("success".toList) = none → lookupJ j ("data".toList) = none →
      sheetRequest r = FetchOutcome.ok j) := by
  refine ⟨?_, ?_, ?_⟩
  · by_cases hok : respOk r = true
    · cases hb : r.jsonBody with
      | none => simp [sheetRequest, hok, hb, isOkOutcome, isNullJ, successIsFalse, lookupJ, lookupF]
      | some j =>
        cases j with
        | null => simp [sheetRequest, hok, hb, isOkOutcome, isNullJ]
        | obj fs =>
          cases hs : lookupF fs (['s', 'u', 'c', 'c', 'e', 's', 's']) with
          | none => simp [sheetRequest, hok, hb, isOkOutcome, isNullJ, successIsFalse, lookupJ, hs]
          | some v =>
            cases v with
            | bool b =>
              cases b <;>
                simp [sheetRequest, hok, hb, isOkOutcome, isNullJ, successIsFalse, lookupJ, hs]
            | _ => simp [sheetRequest, hok, hb, isOkOutcome, isNullJ, successIsFalse, lookupJ, hs]
        | _ => simp [sheetRequest, hok, hb, isOkOutcome, isNullJ, successIsFalse, lookupJ]
    · have hok' : respOk r = false := by simpa using hok
      simp [sheetRequest, hok', isOkOutcome]
  · intro hok hb
    simp [sheetRequest, hok, hb, lookupJ, lookupF]
  · intro j hb hok hnull hs hd
    cases j with
    | null => simp [isNullJ] at hnull
    | obj fs =>
      simp only [lookupJ] at hs hd
      have hs2 : lookupF fs (['s', 'u', 'c', 'c', 'e', 's', 's']) = none := hs
      have hd2 : lookupF fs (['d', 'a', 't', 'a']) = none := hd
      simp [sheetRequest, hok, hb, lookupJ, hs2, hd2]
    | _ => simp [sheetRequest, hok, hb, lookupJ]

/-- C10 witness: a 204 response with an unparseable body resolves with the
`{}` envelope, and a 200 envelope with neither `success` nor `data`
resolves with the envelope itself. -/
theorem sheetRequest_throw_conditions_witness :
    sheetRequest (HttpResponse.mk 204 ("No Content".toList) none) =
      FetchOutcome.ok (JVal.obj []) ∧
    sheetRequest (HttpResponse.mk 200 ("OK".toList)
        (some (JVal.obj [("foo".toList, JVal.num 1)]))) =
      FetchOutcome.ok (JVal.obj [("foo".toList, JVal.num 1)]) :=
  ⟨(sheetRequest_throw_conditions (HttpResponse.mk 204 ("No Content".toList) none)).2.1
      rfl rfl,
   (sheetRequest_throw_conditions (HttpResponse.mk 200 ("OK".toList)
        (some (JVal.obj [("foo".toList, JVal.num 1)])))).2.2
      (JVal.obj [("foo".toList, JVal.num 1)]) rfl rfl rfl rfl rfl⟩

/-- Recursive characterization of the backend log collection, carrying the
0-based index `n` of the first remaining row. -/
def logsGo (rows : List (List JVal)) (n : Nat) : List LogEntryB :=
  match rows with
  | [] => []
  | r :: rs =>
    (if !(rowText r).isEmpty && !(jsTrimL (rowText r)).isEmpty then
      [LogEntryB.mk (n + 2) (rowText r)]
    else []) ++ logsGo rs (n + 1)

theorem mkLogs_eq_go :
    ∀ (rows : List (List JVal)) (n : Nat),
      ((List.enumFrom n rows).map
          (fun p => LogEntryB.mk (p.1 + 2) (rowText p.2))).filter
        (fun e => !e.text.isEmpty && !(jsTrimL e.text).isEmpty) = logsGo rows n := by
  intro rows
  induction rows with
  | nil => intro n; rfl
  | cons r rs ih =>
    intro n
    simp only [List.enumFrom, List.map, logsGo, List.filter]
    cases hq : (!(rowText r).isEmpty && !(jsTrimL (rowText r)).isEmpty) with
    | true => simp [hq, ih (n + 1)]
    | false => simp [hq, ih (n + 1)]

theorem mkLogs_eq (rows : List (List JVal)) : mkLogs rows = logsGo rows 0 :=
  mkLogs_eq_go rows 0

theorem logsGo_mem :
    ∀ (rows : List (List JVal)) (n : Nat) (e : LogEntryB), e ∈ logsGo rows n →
      n + 2 ≤ e.row ∧ (rows.get? (e.row - (n + 2))).map rowText = some e.text ∧
      e.text.isEmpty = false ∧ (jsTrimL e.text).isEmpty = false := by
  intro rows
  induction rows with
  | nil => intro n e he; simp [logsGo] at he
  | cons r rs ih =>
    intro n e he
    simp only [logsGo] at he
    rcases List.mem_append.mp he with hl | hr
    · cases hq : (!(rowText r).isEmpty && !(jsTrimL (rowText r)).isEmpty) with
      | false => rw [hq] at hl; simp at hl
      | true =>
        rw [hq] at hl
        simp at hl
        subst hl
        have hb := Bool.and_eq_true_iff.mp hq
        refine ⟨Nat.le_refl _, ?_, ?_, ?_⟩
        · simp
        · simpa using hb.1
        · simpa using hb.2
    · obtain ⟨h1, h2, h3, h4⟩ := ih (n + 1) e hr
      refine ⟨by omega, ?_, h3, h4⟩
      have hk : e.row - (n + 2) = (e.row - (n + 1 + 2)) + 1 := by omega
      rw [hk]
      simpa using h2

theorem logsGo_sorted :
    ∀ (rows : List (List JVal)) (n : Nat),
      List.Pairwise (fun a b => a.row < b.row) (logsGo rows n) := by
  intro rows
  induction rows with
  | nil => intro n; simp [logsGo]
  | cons r rs ih =>
    intro n
    simp only [logsGo]
    cases hq : (!(rowText r).isEmpty && !(jsTrimL (rowText r)).isEmpty) with
    | false => simpa using ih (n + 1)
    | true =>
      simp only [hq, if_true]
      refine List.pairwise_append.mpr ⟨List.pairwise_singleton _ _, ih (n + 1), ?_⟩
      intro a ha b hb
      simp at ha
      subst ha
      have := (logsGo_mem rs (n + 1) b hb).1
      simp
      omega

/-- C2: the backend log list is strictly ascending in row number; each
entry's row is its source row's 0-based index plus 2 (equivalently, the
raw row at index `row - 2` exists and its fifth-column text is the entry's
text); and no entry has empty or whitespace-only text. -/
theorem mkLogs_sorted_indexed_noblank :
    (∀ rows : List (List JVal),
      List.Pairwise (fun a b => a.row < b.row) (mkLogs rows)) ∧
    (∀ rows : List (List JVal), ∀ e ∈ mkLogs rows,
      2 ≤ e.row ∧ (rows.get? (e.row - 2)).map rowText = some e.text) ∧
    (∀ rows : List (List JVal), ∀ e ∈ mkLogs rows,
      e.text.isEmpty = false ∧ (jsTrimL e.text).isEmpty = false) := by
  refine ⟨?_, ?_, ?_⟩
  · intro rows
    rw [mkLogs_eq]
    exact logsGo_sorted rows 0
  · intro rows e he
    rw [mkLogs_eq] at he
    obtain ⟨h1, h2, _, _⟩ := logsGo_mem rows 0 e he
    exact ⟨h1, h2⟩
  · intro rows e he
    rw [mkLogs_eq] at he
    obtain ⟨_, _, h3, h4⟩ := logsGo_mem rows 0 e he
    exact ⟨h3, h4⟩

/-- C2 witness: on a three-row set with a blank middle row and a numeric
fifth column in the last row, the entry `{row 4, "5"}` is in the output,
its source is the raw row at index 2, and its text is non-blank. -/
theorem mkLogs_sorted_indexed_noblank_witness :
    (2 ≤ (LogEntryB.mk 4 ("5".toList)).row ∧
      (([[JVal.str [], JVal.str [], JVal.str [], JVal.str [], JVal.str ("a".toList)],
         ([] : List JVal),
         [JVal.null, JVal.null, JVal.null, JVal.null, JVal.num 5]].get?
          ((LogEntryB.mk 4 ("5".toList)).row - 2)).map rowText =
        some (LogEntryB.mk 4 ("5".toList)).text)) ∧
    ((LogEntryB.mk 4 ("5".toList)).text.isEmpty = false ∧
      (jsTrimL (LogEntryB.mk 4 ("5".toList)).text).isEmpty = false) :=
  ⟨mkLogs_sorted_indexed_noblank.2.1
      [[JVal.str [], JVal.str [], JVal.str [], JVal.str [], JVal.str ("a".toList)],
       ([] : List JVal),
       [JVal.null, JVal.null, JVal.null, JVal.null, JVal.num 5]]
      (LogEntryB.mk 4 ("5".toList)) (by decide),
   mkLogs_sorted_indexed_noblank.2.2
      [[JVal.str [], JVal.str [], JVal.str [], JVal.str [], JVal.str ("a".toList)],
       ([] : List JVal),
       [JVal.null, JVal.null, JVal.null, JVal.null, JVal.num 5]]
      (LogEntryB.mk 4 ("5".toList)) (by decide)⟩

/-! ## Lemmas about the collectLogs entry map -/

theorem mapGet_mapSet_self : ∀ (m : EMap) (k : Int) (v : List Char),
    mapGet (mapSet m k v) k = some v := by
  intro m
  induction m with
  | nil => intro k v; simp [mapSet, mapGet]
  | cons p m ih =>
    intro k v
    by_cases h : p.1 = k
    · simp [mapSet, h, mapGet]
    · simp [mapSet, h, mapGet, ih]

theorem mapGet_mapSet_other : ∀ (m : EMap) (k : Int) (v : List Char) (q : Int),
    q ≠ k → mapGet (mapSet m k v) q = mapGet m q := by
  intro m
  induction m with
  | nil =>
    intro k v q hq
    simp only [mapSet, mapGet]
    rw [if_neg (show ¬(k = q) from fun hh => hq hh.symm)]
  | cons p m ih =>
    intro k v q hq
    by_cases h : p.1 = k
    · simp only [mapSet, if_pos h, mapGet]
      rw [if_neg (show ¬(k = q) from fun hh => hq hh.symm),
        if_neg (show ¬(p.1 = q) from fun hh => hq (hh.symm.trans h))]
    · simp only [mapSet, if_neg h, mapGet]
      by_cases h2 : p.1 = q
      · rw [if_pos h2, if_pos h2]
      · rw [if_neg h2, if_neg h2]
        exact ih k v q hq

/-- Keys of the map after a `set`: unchanged when the key is present,
extended by the key otherwise. -/
theorem keys_mapSet : ∀ (m : EMap) (k : Int) (v : List Char),
    (mapSet m k v).map Prod.fst = m.map Prod.fst ∨
    ((mapSet m k v).map Prod.fst = m.map Prod.fst ++ [k] ∧ k ∉ m.map Prod.fst) := by
  intro m
  induction m with
  | nil => intro k v; right; simp [mapSet]
  | cons p m ih =>
    intro k v
    by_cases h : p.1 = k
    · left; simp [mapSet, h]
    · rcases ih k v with h1 | ⟨h1, h2⟩
      · left; simp [mapSet, h, h1]
      · right
        constructor
        · simp [mapSet, h, h1]
        · simp [h2]
          exact fun hh => h hh.symm

theorem nodup_keys_mapSet (m : EMap) (k : Int) (v : List Char)
    (h : (m.map Prod.fst).Nodup) : ((mapSet m k v).map Prod.fst).Nodup := by
  rcases keys_mapSet m k v with h1 | ⟨h1, h2⟩
  · rwa [h1]
  · rw [h1]
    simp [List.nodup_append, h, h2]

theorem valsOk_mapSet (m : EMap) (k : Int) (v : List Char)
    (hm : ∀ p ∈ m, (jsTrimL p.2).isEmpty = false)
    (hv : (jsTrimL v).isEmpty = false) :
    ∀ p ∈ mapSet m k v, (jsTrimL p.2).isEmpty = false := by
  induction m with
  | nil =>
    intro p hp
    simp [mapSet] at hp
    simp [hp, hv]
  | cons q m ih =>
    intro p hp
    by_cases h : q.1 = k
    · simp only [mapSet, if_pos h] at hp
      rcases List.mem_cons.mp hp with h2 | h2
      · simp [h2, hv]
      · exact hm p (List.mem_cons_of_mem q h2)
    · simp only [mapSet, if_neg h] at hp
      rcases List.mem_cons.mp hp with h2 | h2
      · exact hm p (h2 ▸ List.mem_cons_self q m)
      · exact ih (fun r hr => hm r (List.mem_cons_of_mem q hr)) p h2

/-- The invariant maintained over every pass of `collectLogs`: stored texts
are never blank, and keys are unique. -/
def EMapInv (m : EMap) : Prop :=
  (∀ p ∈ m, (jsTrimL p.2).isEmpty = false) ∧ (m.map Prod.fst).Nodup

theorem EMapInv_assign (m : EMap) (k : Int) (v : JVal) (h : EMapInv m) :
    EMapInv (assign m k v) := by
  cases v with
  | str s =>
    by_cases hs : (jsTrimL s).isEmpty = false
    · simp only [assign, hs, Bool.not_false, if_true]
      exact ⟨valsOk_mapSet m k s h.1 hs, nodup_keys_mapSet m k s h.2⟩
    · have : (jsTrimL s).isEmpty = true := by
        cases hh : (jsTrimL s).isEmpty
        · exact absurd hh hs
        · rfl
      simpa [assign, this] using h
  | num n => simpa [assign] using h
  | bool b => simpa [assign] using h
  | null => simpa [assign] using h
  | arr xs => simpa [assign] using h
  | obj fs => simpa [assign] using h

/-- One assignment step of the reconstruction, as folded over the list of
attempted assignments. -/
def assignStep (m : EMap) (p : Int × JVal) : EMap := assign m p.1 p.2

theorem EMapInv_foldl_assign : ∀ (l : List (Int × JVal)) (m : EMap),
    EMapInv m → EMapInv (l.foldl assignStep m) := by
  intro l
  induction l with
  | nil => intro m h; exact h
  | cons a l ih =>
    intro m h
    exact ih (assignStep m a) (EMapInv_assign m a.1 a.2 h)

/-- The assignments attempted while scanning one raw array (`fromArray`). -/
def arrayAssigns (xs : List JVal) : List (Int × JVal) :=
  (xs.enum).filterMap (fun p => (itemAssign p.1 p.2).map (fun q => (q.1, JVal.str q.2)))

/-- The assignments attempted for a multiline `log` string. -/
def strAssigns (s : List Char) : List (Int × JVal) :=
  ((logLines s).enum).map (fun p => ((p.1 : Int) + 2, JVal.str p.2))

/-- The assignments attempted for the flat `E<N>` keys. -/
def eAssigns (fs : List (List Char × JVal)) : List (Int × JVal) :=
  fs.filterMap (fun p => (matchEKey p.1).map (fun r => (r, p.2)))

/-- All assignments attempted by `collectLogs`, in program order. -/
def assignsOf (fs : List (List Char × JVal)) : List (Int × JVal) :=
  (match lookupF fs ("logs".toList) with
    | some (.arr xs) => arrayAssigns xs
    | _ => []) ++
  (match lookupF fs ("log".toList) with
    | some (.arr xs) => arrayAssigns xs
    | _ => []) ++
  (match lookupF fs ("log".toList) with
    | some (.str s) => strAssigns s
    | _ => []) ++
  eAssigns fs

theorem foldl_assign_filterMap {α : Type} (f : α → Option (Int × JVal)) :
    ∀ (l : List α) (m : EMap),
      (l.filterMap f).foldl assignStep m =
        l.foldl (fun m a => match f a with | some kv => assignStep m kv | none => m) m := by
  intro l
  induction l with
  | nil => intro m; rfl
  | cons a l ih =>
    intro m
    cases hf : f a with
    | some kv => simp only [List.filterMap_cons, hf, List.foldl_cons]; exact ih _
    | none => simp only [List.filterMap_cons, hf, List.foldl_cons]; exact ih m

theorem fromArray_eq_assigns (xs : List JVal) (m : EMap) :
    fromArray m xs = (arrayAssigns xs).foldl assignStep m := by
  rw [arrayAssigns, foldl_assign_filterMap]
  unfold fromArray
  congr 1
  funext m p
  simp only [itemStep, assignStep]
  cases itemAssign p.1 p.2 with
  | none => rfl
  | some q => rfl

theorem strFold_eq_assigns (s : List Char) (m : EMap) :
    ((logLines s).enum).foldl (fun m p => assign m ((p.1 : Int) + 2) (.str p.2)) m =
      (strAssigns s).foldl assignStep m := by
  rw [strAssigns, List.foldl_map]
  rfl

theorem eFold_eq_assigns (fs : List (List Char × JVal)) (m : EMap) :
    fs.foldl (fun m p =>
      match matchEKey p.1 with
      | some r => assign m r p.2
      | none => m) m = (eAssigns fs).foldl assignStep m := by
  rw [eAssigns, foldl_assign_filterMap]
  congr 1
  funext m p
  cases matchEKey p.1 with
  | none => rfl
  | some r => rfl

theorem entriesOf_eq_foldl (fs : List (List Char × JVal)) :
    entriesOf fs = (assignsOf fs).foldl assignStep [] := by
  unfold entriesOf assignsOf
  rw [List.foldl_append, List.foldl_append, List.foldl_append]
  cases h1 : lookupF fs ("logs".toList) with
  | none =>
    cases h2 : lookupF fs ("log".toList) with
    | none => simp [eFold_eq_assigns]
    | some v =>
      cases v <;> simp [fromArray_eq_assigns, strFold_eq_assigns, eFold_eq_assigns]
  | some v1 =>
    cases v1 <;>
    · cases h2 : lookupF fs ("log".toList) with
      | none => simp [fromArray_eq_assigns, eFold_eq_assigns]
      | some v =>
        cases v <;>
          simp [fromArray_eq_assigns, strFold_eq_assigns, eFold_eq_assigns]

/-- An attempted assignment `(row, value)` actually stores text for row `k`
exactly when it targets `k` with a string of nonblank trimmed text. -/
def validAssign (k : Int) (p : Int × JVal) : Bool :=
  (p.1 == k) && (match p.2 with
    | JVal.str s => !(jsTrimL s).isEmpty
    | _ => false)

/-- The text of a (string) assignment value. -/
def textOfVal : JVal → List Char
  | .str s => s
  | _ => []

/-- The last effective assignment to row `k` in an assignment sequence. -/
def lastAssignVal (l : List (Int × JVal)) (k : Int) : Option (List Char) :=
  (l.reverse.find? (validAssign k)).map (fun p => textOfVal p.2)

theorem mapGet_assignStep (m : EMap) (a : Int × JVal) (k : Int) :
    mapGet (assignStep m a) k =
      if validAssign k a = true then some (textOfVal a.2) else mapGet m k := by
  obtain ⟨k0, v⟩ := a
  cases v with
  | str s =>
    cases hh : (jsTrimL s).isEmpty with
    | true => simp [assignStep, assign, hh, validAssign]
    | false =>
      simp only [assignStep, assign, hh, Bool.not_false, if_true]
      by_cases hk : k0 = k
      · subst hk
        rw [mapGet_mapSet_self]
        simp [validAssign, hh, textOfVal]
      · rw [mapGet_mapSet_other m k0 s k (fun h2 => hk h2.symm)]
        simp [validAssign, hk]
  | num n => simp [assignStep, assign, validAssign]
  | bool b => simp [assignStep, assign, validAssign]
  | null => simp [assignStep, assign, validAssign]
  | arr xs => simp [assignStep, assign, validAssign]
  | obj fs => simp [assignStep, assign, validAssign]

theorem mapGet_foldl_assign : ∀ (l : List (Int × JVal)) (m : EMap) (k : Int),
    mapGet (l.foldl assignStep m) k =
      match lastAssignVal l k with
      | some t => some t
      | none => mapGet m k := by
  intro l
  induction l with
  | nil => intro m k; rfl
  | cons a l ih =>
    intro m k
    rw [List.foldl_cons, ih]
    unfold lastAssignVal
    rw [show (a :: l).reverse = l.reverse ++ [a] by simp, List.find?_append]
    cases hf : l.reverse.find? (validAssign k) with
    | some p => simp
    | none =>
      cases hv : validAssign k a with
      | true => simp [List.find?, hv, mapGet_assignStep]
      | false => simp [List.find?, hv, mapGet_assignStep]

theorem pairwise_and_of {α : Type} {R S : α → α → Prop} :
    ∀ {l : List α}, l.Pairwise R → l.Pairwise S →
      l.Pairwise (fun a b => R a b ∧ S a b) := by
  intro l
  induction l with
  | nil => intro _ _; constructor
  | cons a l ih =>
    intro h1 h2
    obtain ⟨h1a, h1l⟩ := List.pairwise_cons.mp h1
    obtain ⟨h2a, h2l⟩ := List.pairwise_cons.mp h2
    exact List.pairwise_cons.mpr ⟨fun b hb => ⟨h1a b hb, h2a b hb⟩, ih h1l h2l⟩

instance : IsTotal (Int × List Char) (fun a b => a.1 ≤ b.1) :=
  ⟨fun a b => Int.le_total a.1 b.1⟩

instance : IsTrans (Int × List Char) (fun a b => a.1 ≤ b.1) :=
  ⟨fun _ _ _ h1 h2 => le_trans h1 h2⟩

theorem EMapInv_entriesOf (fs : List (List Char × JVal)) : EMapInv (entriesOf fs) := by
  rw [entriesOf_eq_foldl]
  exact EMapInv_foldl_assign (assignsOf fs) [] ⟨by simp, by simp⟩

/-- C5: for every raw response object, the reconstructed log list is
strictly ascending in row number (hence deterministic for the input and
free of duplicate rows), contains no empty or whitespace-only texts, and
the text recorded for each row is the last effective assignment to that
row across the four extraction passes (canonical `logs` array, legacy
`log` array, multiline `log` string, flat `E<N>` keys) — last-write-wins. -/
theorem collectLogs_props :
    (∀ fs : List (List Char × JVal),
      List.Pairwise (fun a b => a.row < b.row) (collectLogs fs)) ∧
    (∀ fs : List (List Char × JVal),
      ((collectLogs fs).map LogEntryF.row).Nodup) ∧
    (∀ fs : List (List Char × JVal), ∀ e ∈ collectLogs fs,
      (jsTrimL e.text).isEmpty = false ∧ e.text.isEmpty = false) ∧
    (∀ (fs : List (List Char × JVal)) (k : Int),
      mapGet (entriesOf fs) k = lastAssignVal (assignsOf fs) k) := by
  have hpair_lt : ∀ fs : List (List Char × JVal),
      (List.insertionSort (fun a b => a.1 ≤ b.1) (entriesOf fs)).Pairwise
        (fun a b => a.1 < b.1) := by
    intro fs
    have hsorted := List.sorted_insertionSort (fun a b => a.1 ≤ b.1) (entriesOf fs)
    have hperm := List.perm_insertionSort (fun a b => a.1 ≤ b.1) (entriesOf fs)
    have hnodup : ((List.insertionSort (fun a b => a.1 ≤ b.1) (entriesOf fs)).map
        Prod.fst).Nodup :=
      ((hperm.map Prod.fst).nodup_iff).mpr (EMapInv_entriesOf fs).2
    have hne := List.pairwise_map.mp hnodup
    exact (pairwise_and_of hsorted hne).imp (fun h => lt_of_le_of_ne h.1 h.2)
  refine ⟨?_, ?_, ?_, ?_⟩
  · intro fs
    unfold collectLogs
    exact List.pairwise_map.mpr ((hpair_lt fs).imp (fun h => h))
  · intro fs
    unfold collectLogs
    rw [List.map_map]
    exact List.pairwise_map.mpr (((hpair_lt fs).imp (fun h => ne_of_lt h)))
  · intro fs e he
    unfold collectLogs at he
    obtain ⟨p, hp, hpe⟩ := List.mem_map.mp he
    have hmem : p ∈ entriesOf fs :=
      (List.perm_insertionSort (fun a b => a.1 ≤ b.1) (entriesOf fs)).subset hp
    have hval := (EMapInv_entriesOf fs).1 p hmem
    have htext : e.text = p.2 := by rw [← hpe]
    constructor
    · rw [htext]; exact hval
    · rw [htext]
      cases hc : p.2.isEmpty with
      | false => rfl
      | true =>
        exfalso
        have : p.2 = [] := by
          cases p2 : p.2 with
          | nil => rfl
          | cons c cs => rw [p2] at hc; simp [List.isEmpty] at hc
        rw [this] at hval
        simp [jsTrimL] at hval
  · intro fs k
    rw [entriesOf_eq_foldl, mapGet_foldl_assign]
    cases lastAssignVal (assignsOf fs) k with
    | some t => rfl
    | none => rfl

/-- C5 witness: in a response carrying both a canonical `logs` array entry
and a later flat `E2` key for the same row, the surviving entry for row 2
is the last-assigned text `"b"`, and it is non-blank. -/
theorem collectLogs_props_witness :
    (jsTrimL (LogEntryF.mk 2 ("b".toList)).text).isEmpty = false ∧
    (LogEntryF.mk 2 ("b".toList)).text.isEmpty = false :=
  collectLogs_props.2.2.1
    [("logs".toList, JVal.arr [JVal.str ("a".toList)]),
     ("E2".toList, JVal.str ("b".toList))]
    (LogEntryF.mk 2 ("b".toList)) (by decide)
